import Mathlib

/-!
Verification of the sandbox lifecycle and workspace-isolation manager
(`src/main.py`).  Python strings are modelled as lists of characters,
the docker engine as an explicit oracle/state, and each MCP tool as a
pure function translated from its source, returning its result dict
together with (where a claim needs it) the list of engine calls it
issued or the updated filesystem state.
-/

namespace SandboxMCP

/-- Python strings, modelled as lists of characters. -/
abbrev Str := List Char

/-- Turn a Lean string literal into the model's string type. -/
def str (s : String) : Str := s.data

/-- Python `s.startswith(p)`. -/
def startsWith (p s : Str) : Bool := p.isPrefixOf s

/-- Python `s.lstrip('/')`: drop the leading slash characters. -/
def lstripSlash (s : Str) : Str := s.dropWhile (· = '/')

/-- A path is absolute when it begins with a path separator. -/
def isAbs (s : Str) : Bool := startsWith (str "/") s

/-- `os.path.join(b, r)` for the two-argument calls in the source:
an absolute second component replaces the first, otherwise the pieces
are joined with exactly one separator between them. -/
def pyJoin (b r : Str) : Str :=
  if isAbs r then r
  else if b = [] then r
  else if b.getLast? = some '/' then b ++ r
  else b ++ '/' :: r

/-- Split a path on the separator, keeping empty groups
(the raw grouping underlying segment extraction). -/
def splitSlash : Str → List Str
  | [] => [[]]
  | c :: cs =>
    if c = '/' then [] :: splitSlash cs
    else
      match splitSlash cs with
      | [] => [[c]]
      | g :: gs => (c :: g) :: gs

/-- The non-empty segments of a path. -/
def segs (s : Str) : List Str := (splitSlash s).filter (· ≠ [])

/-- One step of filesystem path normalization: `.` is dropped and `..`
removes the previous segment (at the root it stays at the root). -/
def normStep (acc : List Str) (seg : Str) : List Str :=
  if seg = str "." then acc
  else if seg = str ".." then acc.dropLast
  else acc ++ [seg]

/-- Normalize a segment list the way the filesystem resolves it. -/
def normSegs (l : List Str) : List Str := l.foldl normStep []

/-- `p`, once the filesystem resolves it, lies inside `root`. -/
def isUnder (root p : Str) : Bool :=
  (normSegs (segs root)).isPrefixOf (normSegs (segs p))

/-- The sanitization the source applies to caller-supplied destination
components (`write_file_sandbox` lines 350–352, `copy_file` lines
437–438, `copy_project` lines 515–517): strip leading separators when
the component looks absolute. -/
def sanitizeDest (d : Str) : Str :=
  if startsWith (str "/") d then lstripSlash d else d

/-- The base directory every destination is resolved against
(`/app/workspaces/<workspace_id>` in persistent mode, `/app` otherwise). -/
def baseDir (ws : Option Str) : Str :=
  match ws with
  | some w => str "/app/workspaces/" ++ w
  | none => str "/app"

/-- Target-directory resolution of `write_file_sandbox` (lines 347–353)
and `copy_project` (lines 512–518): default to the base directory,
otherwise sanitize and `os.path.join`. -/
def resolveTargetDir (base : Str) (dest : Option Str) : Str :=
  match dest with
  | none => base
  | some d => pyJoin base (sanitizeDest d)

/-- Full destination path of `copy_file` (lines 436–441):
`f"{base_dir}/{dest_path}"` after the same sanitization. -/
def copyFileDest (base d : Str) : Str := base ++ '/' :: sanitizeDest d

/-! Boolean prefix facts used to reason about `isUnder`. -/

theorem segIsPrefixOf_refl (l : List Str) : l.isPrefixOf l = true := by
  induction l with
  | nil => simp [List.isPrefixOf]
  | cons a as ih => simp [List.isPrefixOf, ih]

theorem segIsPrefixOf_append (l t : List Str) : l.isPrefixOf (l ++ t) = true := by
  induction l with
  | nil => simp [List.isPrefixOf]
  | cons a as ih => simp [List.isPrefixOf, ih]

theorem segIsPrefixOf_trans {a b c : List Str} (h1 : a.isPrefixOf b = true)
    (h2 : b.isPrefixOf c = true) : a.isPrefixOf c = true := by
  induction a generalizing b c with
  | nil => simp [List.isPrefixOf]
  | cons x xs ih =>
    cases b with
    | nil => simp [List.isPrefixOf] at h1
    | cons y ys =>
      cases c with
      | nil => simp [List.isPrefixOf] at h2
      | cons z zs =>
        simp only [List.isPrefixOf, Bool.and_eq_true, beq_iff_eq] at h1 h2 ⊢
        exact ⟨h1.1.trans h2.1, ih h1.2 h2.2⟩

/-! Segment lemmas for the path resolution of the source. -/

theorem splitSlash_ne_nil (s : Str) : splitSlash s ≠ [] := by
  cases s with
  | nil => simp [splitSlash]
  | cons c cs =>
    simp only [splitSlash]
    split
    · simp
    · split <;> simp_all

theorem splitSlash_append_slash (xs ys : Str) :
    splitSlash (xs ++ '/' :: ys) = splitSlash xs ++ splitSlash ys := by
  induction xs with
  | nil => simp [splitSlash]
  | cons c cs ih =>
    by_cases hc : c = '/'
    · subst hc
      simp [splitSlash, ih]
    · cases h : splitSlash cs with
      | nil => exact absurd h (splitSlash_ne_nil cs)
      | cons g gs =>
        simp only [List.cons_append, splitSlash, if_neg hc, List.append_eq]
        rw [ih, h]
        simp

theorem segs_append_slash (xs ys : Str) :
    segs (xs ++ '/' :: ys) = segs xs ++ segs ys := by
  simp [segs, splitSlash_append_slash, List.filter_append]

theorem segs_nil : segs [] = [] := by decide

theorem segs_slash_cons (ys : Str) : segs ('/' :: ys) = segs ys := by
  simp [segs, splitSlash]

theorem segs_lstripSlash (s : Str) : segs (lstripSlash s) = segs s := by
  induction s with
  | nil => rfl
  | cons c cs ih =>
    by_cases hc : c = '/'
    · subst hc
      simpa [lstripSlash, segs_slash_cons] using ih
    · simp [lstripSlash, hc]

theorem segs_sanitizeDest (d : Str) : segs (sanitizeDest d) = segs d := by
  unfold sanitizeDest
  split
  · exact segs_lstripSlash d
  · rfl

theorem isAbs_lstripSlash (s : Str) : isAbs (lstripSlash s) = false := by
  induction s with
  | nil => rfl
  | cons c cs ih =>
    by_cases hc : c = '/'
    · subst hc
      have hstep : lstripSlash ('/' :: cs) = lstripSlash cs := by
        simp [lstripSlash, List.dropWhile]
      rw [hstep]; exact ih
    · have hdrop : lstripSlash (c :: cs) = c :: cs := by simp [lstripSlash, hc]
      rw [hdrop]
      simp only [isAbs, startsWith, str, List.isPrefixOf, Bool.and_eq_false_iff]
      left
      simp only [beq_eq_false_iff_ne, ne_eq]
      exact fun h => hc h.symm

theorem isAbs_sanitizeDest (d : Str) : isAbs (sanitizeDest d) = false := by
  unfold sanitizeDest
  split
  · exact isAbs_lstripSlash d
  · rename_i h
    simpa [isAbs] using h

theorem segs_pyJoin (b r : Str) (hr : isAbs r = false) :
    segs (pyJoin b r) = segs b ++ segs r := by
  unfold pyJoin
  rw [hr]
  simp only [Bool.false_eq_true, if_false]
  by_cases hb : b = []
  · simp [hb, segs_nil]
  · simp only [if_neg hb]
    by_cases hl : b.getLast? = some '/'
    · simp only [if_pos hl]
      obtain ⟨b₀, rfl⟩ : ∃ b₀, b = b₀ ++ ['/'] := by
        refine ⟨b.dropLast, ?_⟩
        have h2 := List.dropLast_append_getLast hb
        have h3 : b.getLast hb = '/' := by
          have h4 := List.getLast?_eq_getLast b hb
          rw [h4] at hl
          exact Option.some.inj hl
        rw [h3] at h2
        exact h2.symm
      have h1 : segs (b₀ ++ ['/']) = segs b₀ := by
        have := segs_append_slash b₀ []
        simpa [segs_nil] using this
      calc segs (b₀ ++ ['/'] ++ r) = segs (b₀ ++ '/' :: r) := by simp
        _ = segs b₀ ++ segs r := segs_append_slash b₀ r
        _ = segs (b₀ ++ ['/']) ++ segs r := by rw [h1]
    · simp only [if_neg hl]
      exact segs_append_slash b r

theorem normSegs_extend (acc : List Str) (ys : List Str)
    (h : str ".." ∉ ys) :
    acc.isPrefixOf (List.foldl normStep acc ys) = true := by
  induction ys generalizing acc with
  | nil => exact segIsPrefixOf_refl acc
  | cons y ys ih =>
    have hy : y ≠ str ".." := fun hc => h (by simp [hc])
    have hrest : str ".." ∉ ys := fun hc => h (by simp [hc])
    simp only [List.foldl_cons]
    by_cases hdot : y = str "."
    · simpa [normStep, hdot] using ih acc hrest
    · have hstep : normStep acc y = acc ++ [y] := by
        simp [normStep, hdot, hy]
      rw [hstep]
      exact segIsPrefixOf_trans (segIsPrefixOf_append acc [y]) (ih _ hrest)

/-- Claim C1 as stated is false: a destination containing a `..`
segment resolves outside the working-root even though its leading
separators are stripped — here `dest = "../x"` against root `/app`
yields `/app/../x`, which the filesystem resolves to `/x`. -/
theorem C1_escape_counterexample :
    isUnder (str "/app") (resolveTargetDir (str "/app") (some (str "../x"))) = false ∧
    isUnder (str "/app") (copyFileDest (str "/app") (str "../x")) = false ∧
    resolveTargetDir (str "/app") (some (str "../x")) = str "/app/../x" := by
  decide

/-- Claim C1, amended: for every base directory and every destination
component whose segments do not contain `..`, the resolved target of
`write_file_sandbox`/`copy_project` (`resolveTargetDir`) and of
`copy_file` (`copyFileDest`) lies under the base directory — in
particular leading path separators are stripped, so an absolute-looking
destination cannot escape the root that way. -/
theorem C1_resolved_paths_stay_under_root (base d : Str)
    (hnd : str ".." ∉ segs d) :
    isUnder base (resolveTargetDir base (some d)) = true ∧
    isUnder base (copyFileDest base d) = true ∧
    isUnder base (resolveTargetDir base none) = true := by
  have hsan : segs (sanitizeDest d) = segs d := segs_sanitizeDest d
  have habs : isAbs (sanitizeDest d) = false := isAbs_sanitizeDest d
  refine ⟨?_, ?_, ?_⟩
  · show isUnder base (pyJoin base (sanitizeDest d)) = true
    unfold isUnder
    rw [segs_pyJoin base _ habs, hsan]
    unfold normSegs
    rw [List.foldl_append]
    exact normSegs_extend _ _ hnd
  · show isUnder base (base ++ '/' :: sanitizeDest d) = true
    unfold isUnder
    rw [segs_append_slash, hsan]
    unfold normSegs
    rw [List.foldl_append]
    exact normSegs_extend _ _ hnd
  · show isUnder base base = true
    exact segIsPrefixOf_refl _

/-- Witness for the amended C1: at the concrete base `/app` and
destination `/tmp/out` (absolute-looking, no `..`), all three resolved
paths stay under `/app`. -/
theorem C1_resolved_paths_stay_under_root_witness :
    (str ".." ∉ segs (str "/tmp/out")) ∧
    (isUnder (str "/app") (resolveTargetDir (str "/app") (some (str "/tmp/out"))) = true ∧
     isUnder (str "/app") (copyFileDest (str "/app") (str "/tmp/out")) = true ∧
     isUnder (str "/app") (resolveTargetDir (str "/app") none) = true) :=
  ⟨by decide, C1_resolved_paths_stay_under_root (str "/app") (str "/tmp/out") (by decide)⟩

/-! ## Command execution (`sandbox_exec`, lines 218–315) -/

/-- One record per executed command (lines 293–299 of the source). -/
structure CommandResult where
  command : Str
  exitCode : Nat
  stdout : Str
  stderr : Str
  success : Bool
deriving DecidableEq

/-- The engine surface `sandbox_exec` uses: container lookup by id and
`exec_run` of a shell command with demuxed output.  `run` returns the
exit code and the two optional byte streams, or an adapter error. -/
structure ExecEngine where
  contains : Str → Bool
  run : Str → Except Str (Nat × Option Str × Option Str)

/-- The working directory of a batch (line 243). -/
def workingDir (ws : Option Str) : Str :=
  match ws with
  | some w => str "/app/workspaces/" ++ w
  | none => str "/app"

/-- The shell command actually executed (lines 264–267): in persistent
mode the working-directory prefix is prepended. -/
def cmdToRun (ws : Option Str) (cmd : Str) : Str :=
  match ws with
  | some w => str "cd " ++ workingDir (some w) ++ str " && " ++ cmd
  | none => cmd

/-- Decode a demuxed stream (lines 289–291): a missing stream becomes
the empty string. -/
def decodeStream (o : Option Str) : Str :=
  match o with
  | some s => s
  | none => []

/-- The result record appended for one command (lines 293–299). -/
def mkResult (cmd : Str) (code : Nat) (o e : Option Str) : CommandResult :=
  ⟨cmd, code, decodeStream o, decodeStream e, code == 0⟩

/-- Observable engine activity of the per-command part of the loop:
the best-effort `pip install` attempt (lines 272–278) and the
`exec_run` of the shell command (line 281). -/
inductive ExecEvent where
  | pipSetup (c : Str)
  | ran (c : Str)
deriving DecidableEq

/-- The command loop of `sandbox_exec` (lines 262–304): per command,
attempt the dependency install when the shell command starts with
`"python"`, run it, append a result, and stop at the first non-zero
exit code.  An adapter error anywhere aborts the whole batch (the
surrounding `try` discards the partial results). -/
def execLoop (eng : ExecEngine) (ws : Option Str) :
    List Str → Except Str (List CommandResult × List ExecEvent)
  | [] => .ok ([], [])
  | cmd :: rest =>
    let c := cmdToRun ws cmd
    let evs0 := if startsWith (str "python") c then [ExecEvent.pipSetup c] else []
    match eng.run c with
    | .error e => .error e
    | .ok (code, o, e2) =>
      let r := mkResult cmd code o e2
      if code = 0 then
        match execLoop eng ws rest with
        | .error e => .error e
        | .ok (rs, evs) => .ok (r :: rs, evs0 ++ ExecEvent.ran c :: evs)
      else .ok ([r], evs0 ++ [ExecEvent.ran c])

/-- The dict returned by `sandbox_exec`. -/
structure ToolResult where
  success : Bool
  results : Option (List CommandResult)
  error : Option Str
deriving DecidableEq

/-- `sandbox_exec` (lines 218–315): short-circuit when docker is
unavailable, look the container up (a raised `NotFound` is caught at
the operation boundary), run the batch, and report `success = True`
with the per-command results unless an infrastructure error occurred.
The pip bootstrap of lines 246–260 is best-effort, writes nothing into
the results and swallows its own errors, so it is not modelled. -/
def sandbox_exec (avail : Bool) (eng : ExecEngine) (cid : Str)
    (cmds : List Str) (ws : Option Str) : ToolResult :=
  if avail = false then ⟨false, none, some (str "Docker服务不可用")⟩
  else if eng.contains cid = false then
    ⟨false, none, some (str "执行命令失败: NotFound")⟩
  else
    match execLoop eng ws cmds with
    | .error e => ⟨false, none, some (str "执行命令失败: " ++ e)⟩
    | .ok (rs, _) => ⟨true, some rs, none⟩

/-- Extract the command of a `ran` event. -/
def ranCmd : ExecEvent → Option Str
  | .ran c => some c
  | .pipSetup _ => none

theorem filterMap_ranCmd_evs0 (c : Str) :
    List.filterMap ranCmd
      (if startsWith (str "python") c then [ExecEvent.pipSetup c] else []) = [] := by
  split <;> simp [ranCmd]

/-- Claim C2: a successful batch returns one `CommandResult` per
executed command in request order — each carrying the command text, the
exit code and demuxed streams the engine reported, and a success flag
equal to `exit code == 0` — halting at the first failing command: the
batch is a prefix of the requested commands, every entry before the
last has exit code zero, a truncated batch ends in the failing command,
and exactly the commands of the batch were run. -/
theorem C2_batch_results_and_halt (eng : ExecEngine) (ws : Option Str)
    (cmds : List Str) (rs : List CommandResult) (evs : List ExecEvent)
    (h : execLoop eng ws cmds = .ok (rs, evs)) :
    rs.length ≤ cmds.length ∧
    rs.map (fun r => r.command) = cmds.take rs.length ∧
    (∀ r ∈ rs, ∃ o e, eng.run (cmdToRun ws r.command) = .ok (r.exitCode, o, e) ∧
      r.stdout = decodeStream o ∧ r.stderr = decodeStream e ∧
      r.success = (r.exitCode == 0)) ∧
    (∀ r ∈ rs.dropLast, r.exitCode = 0) ∧
    (rs.length < cmds.length → ∃ rl, rs.getLast? = some rl ∧ rl.exitCode ≠ 0) ∧
    evs.filterMap ranCmd = (cmds.take rs.length).map (cmdToRun ws) := by
  induction cmds generalizing rs evs with
  | nil =>
    simp only [execLoop, Except.ok.injEq, Prod.mk.injEq] at h
    obtain ⟨h1, h2⟩ := h
    subst h1; subst h2
    simp
  | cons cmd rest ih =>
    simp only [execLoop] at h
    cases hrun : eng.run (cmdToRun ws cmd) with
    | error e => rw [hrun] at h; exact absurd h (by simp)
    | ok v =>
      obtain ⟨code, o, e2⟩ := v
      rw [hrun] at h
      simp only at h
      by_cases hcode : code = 0
      · subst hcode
        rw [if_pos rfl] at h
        cases hrec : execLoop eng ws rest with
        | error e => rw [hrec] at h; exact absurd h (by simp)
        | ok p =>
          obtain ⟨rs', evs'⟩ := p
          rw [hrec] at h
          simp only [Except.ok.injEq, Prod.mk.injEq] at h
          obtain ⟨h1, h2⟩ := h
          subst h1; subst h2
          obtain ⟨ihlen, ihmap, ihrun, ihpre, ihlast, ihevs⟩ := ih rs' evs' hrec
          refine ⟨by simpa using Nat.succ_le_succ ihlen, ?_, ?_, ?_, ?_, ?_⟩
          · simp [mkResult, List.take_succ_cons, ihmap]
          · intro r hr
            rcases List.mem_cons.mp hr with hr | hr
            · subst hr
              exact ⟨o, e2, by simpa [mkResult] using hrun, rfl, rfl, rfl⟩
            · exact ihrun r hr
          · intro r hr
            cases rs' with
            | nil => simp [List.dropLast] at hr
            | cons b l =>
              rw [List.dropLast_cons₂] at hr
              rcases List.mem_cons.mp hr with hr | hr
              · subst hr; rfl
              · exact ihpre r hr
          · intro hlt
            have hlt' : rs'.length < rest.length := by
              simpa [List.length_cons] using hlt
            obtain ⟨rl, hrl, hne⟩ := ihlast hlt'
            refine ⟨rl, ?_, hne⟩
            cases rs' with
            | nil => simp at hrl
            | cons b l => simpa [List.getLast?_cons_cons] using hrl
          · rw [List.filterMap_append]
            rw [filterMap_ranCmd_evs0]
            simp only [List.nil_append, List.filterMap_cons, ranCmd]
            rw [ihevs]
            simp [mkResult, List.take_succ_cons]
      · rw [if_neg hcode] at h
        simp only [Except.ok.injEq, Prod.mk.injEq] at h
        obtain ⟨h1, h2⟩ := h
        subst h1; subst h2
        refine ⟨by simp, by simp [mkResult], ?_, by simp [List.dropLast], ?_, ?_⟩
        · intro r hr
          rcases List.mem_cons.mp hr with hr | hr
          · subst hr
            exact ⟨o, e2, by simpa [mkResult] using hrun, rfl, rfl, rfl⟩
          · simp at hr
        · intro _
          exact ⟨mkResult cmd code o e2, rfl, by simpa [mkResult] using hcode⟩
        · rw [List.filterMap_append]
          rw [filterMap_ranCmd_evs0]
          simp [ranCmd, mkResult]

/-- The engine of the spec's batch example: every command exits 0
except `false`, which exits 1. -/
def tfEngine : ExecEngine where
  contains := fun _ => true
  run := fun c =>
    if c = str "false" then .ok (1, none, some (str "exit 1"))
    else .ok (0, some (str "ok"), none)

def tfCmds : List Str := [str "true", str "false", str "true"]

def tfResults : List CommandResult :=
  [⟨str "true", 0, str "ok", [], true⟩, ⟨str "false", 1, [], str "exit 1", false⟩]

def tfEvents : List ExecEvent :=
  [ExecEvent.ran (str "true"), ExecEvent.ran (str "false")]

/-- Witness for C2: on `["true", "false", "true"]` the batch has
length 2, its last entry is the failing command, and the third command
never runs (only two `ran` events). -/
theorem C2_batch_results_and_halt_witness :
    (execLoop tfEngine none tfCmds = .ok (tfResults, tfEvents)) ∧
    (tfResults.length ≤ tfCmds.length ∧
     tfResults.map (fun r => r.command) = tfCmds.take tfResults.length ∧
     (∀ r ∈ tfResults, ∃ o e,
       tfEngine.run (cmdToRun none r.command) = .ok (r.exitCode, o, e) ∧
       r.stdout = decodeStream o ∧ r.stderr = decodeStream e ∧
       r.success = (r.exitCode == 0)) ∧
     (∀ r ∈ tfResults.dropLast, r.exitCode = 0) ∧
     (tfResults.length < tfCmds.length →
       ∃ rl, tfResults.getLast? = some rl ∧ rl.exitCode ≠ 0) ∧
     tfEvents.filterMap ranCmd = (tfCmds.take tfResults.length).map (cmdToRun none)) :=
  ⟨rfl, C2_batch_results_and_halt tfEngine none tfCmds tfResults tfEvents rfl⟩

/-- Truth of an `Except` being a success. -/
def exceptOk {ε α : Type} : Except ε α → Bool
  | .ok _ => true
  | .error _ => false

theorem execLoop_ok_of_total (eng : ExecEngine) (ws : Option Str)
    (htot : ∀ c, exceptOk (eng.run c) = true) (cmds : List Str) :
    exceptOk (execLoop eng ws cmds) = true := by
  induction cmds with
  | nil => rfl
  | cons cmd rest ih =>
    simp only [execLoop]
    cases hrun : eng.run (cmdToRun ws cmd) with
    | error e => have := htot (cmdToRun ws cmd); rw [hrun] at this; exact absurd this (by simp [exceptOk])
    | ok v =>
      obtain ⟨code, o, e2⟩ := v
      simp only
      by_cases hcode : code = 0
      · subst hcode
        rw [if_pos rfl]
        cases hrec : execLoop eng ws rest with
        | error e => rw [hrec] at ih; exact absurd ih (by simp [exceptOk])
        | ok p => simp [exceptOk]
      · rw [if_neg hcode]
        simp [exceptOk]

/-- Claim C8: `sandbox_exec` reports `success = true` exactly when the
infrastructure worked — docker available, container found, no adapter
exception — regardless of the individual commands' exit codes (an
engine whose `exec_run` never raises always yields `success = true`);
on `success = false` the result carries an error message and no
results list, and on `success = true` a results list and no error. -/
theorem C8_success_iff_infrastructure (avail : Bool) (eng : ExecEngine)
    (cid : Str) (cmds : List Str) (ws : Option Str) :
    ((sandbox_exec avail eng cid cmds ws).success = true ↔
      avail = true ∧ eng.contains cid = true ∧
      exceptOk (execLoop eng ws cmds) = true) ∧
    ((sandbox_exec avail eng cid cmds ws).success = true →
      (sandbox_exec avail eng cid cmds ws).error = none ∧
      ∃ rs, (sandbox_exec avail eng cid cmds ws).results = some rs) ∧
    ((sandbox_exec avail eng cid cmds ws).success = false →
      (sandbox_exec avail eng cid cmds ws).results = none ∧
      (sandbox_exec avail eng cid cmds ws).error ≠ none) ∧
    ((∀ c, exceptOk (eng.run c) = true) → avail = true →
      eng.contains cid = true →
      (sandbox_exec avail eng cid cmds ws).success = true) := by
  refine ⟨?_, ?_, ?_, ?_⟩
  · unfold sandbox_exec
    by_cases ha : avail = false
    · simp [ha]
    · rw [if_neg ha]
      by_cases hc : eng.contains cid = false
      · simp [hc]
      · rw [if_neg hc]
        cases hrec : execLoop eng ws cmds with
        | error e =>
          simp [exceptOk, eq_true_of_ne_false ha, eq_true_of_ne_false hc]
        | ok p =>
          simp [exceptOk, eq_true_of_ne_false ha, eq_true_of_ne_false hc]
  · unfold sandbox_exec
    by_cases ha : avail = false
    · simp [ha]
    · rw [if_neg ha]
      by_cases hc : eng.contains cid = false
      · simp [hc]
      · rw [if_neg hc]
        cases hrec : execLoop eng ws cmds with
        | error e => simp
        | ok p => simp
  · unfold sandbox_exec
    by_cases ha : avail = false
    · simp [ha]
    · rw [if_neg ha]
      by_cases hc : eng.contains cid = false
      · simp [hc]
      · rw [if_neg hc]
        cases hrec : execLoop eng ws cmds with
        | error e => simp
        | ok p => simp
  · intro htot ha hc
    unfold sandbox_exec
    rw [ha, if_neg (by simp), hc, if_neg (by simp)]
    have := execLoop_ok_of_total eng ws htot cmds
    cases hrec : execLoop eng ws cmds with
    | error e => rw [hrec] at this; exact absurd this (by simp [exceptOk])
    | ok p => simp

/-- Witness for C8: a batch containing a failing command still reports
top-level `success = true`. -/
theorem C8_success_iff_infrastructure_witness :
    (sandbox_exec true tfEngine (str "c0") tfCmds none).success = true :=
  (C8_success_iff_infrastructure true tfEngine (str "c0") tfCmds none).2.2.2
    (fun c => by
      show exceptOk (if c = str "false" then _ else _) = true
      split <;> rfl)
    rfl rfl

theorem startsWith_python_cmdToRun (w cmd : Str) :
    startsWith (str "python") (cmdToRun (some w) cmd) = false := by
  show List.isPrefixOf ('p' :: str "ython")
    ('c' :: 'd' :: (' ' :: workingDir (some w) ++ str " && " ++ cmd)) = false
  simp [List.isPrefixOf]

theorem execLoop_no_pipSetup (eng : ExecEngine) (w : Str) :
    ∀ (cmds : List Str) (rs : List CommandResult) (evs : List ExecEvent),
      execLoop eng (some w) cmds = .ok (rs, evs) →
      ∀ e ∈ evs, ∀ c, e ≠ ExecEvent.pipSetup c := by
  intro cmds
  induction cmds with
  | nil =>
    intro rs evs h
    simp only [execLoop, Except.ok.injEq, Prod.mk.injEq] at h
    obtain ⟨h1, h2⟩ := h
    subst h2
    simp
  | cons cmd rest ih =>
    intro rs evs h
    simp only [execLoop] at h
    rw [startsWith_python_cmdToRun] at h
    simp only [Bool.false_eq_true, if_false] at h
    cases hrun : eng.run (cmdToRun (some w) cmd) with
    | error e => rw [hrun] at h; exact absurd h (by simp)
    | ok v =>
      obtain ⟨code, o, e2⟩ := v
      rw [hrun] at h
      simp only at h
      by_cases hcode : code = 0
      · subst hcode
        rw [if_pos rfl] at h
        cases hrec : execLoop eng (some w) rest with
        | error e => rw [hrec] at h; exact absurd h (by simp)
        | ok p =>
          obtain ⟨rs', evs'⟩ := p
          rw [hrec] at h
          simp only [Except.ok.injEq, Prod.mk.injEq] at h
          obtain ⟨h1, h2⟩ := h
          subst h2
          intro e he c
          simp only [List.nil_append, List.mem_cons] at he
          rcases he with he | he
          · subst he; simp
          · exact ih rs' evs' hrec e he c
      · rw [if_neg hcode] at h
        simp only [Except.ok.injEq, Prod.mk.injEq] at h
        obtain ⟨h1, h2⟩ := h
        subst h2
        intro e he c
        simp only [List.nil_append, List.mem_cons, List.not_mem_nil, or_false] at he
        subst he
        simp

/-- Claim C9: with a `workspace_id` the shell command is prefixed by
`cd <workspace> && ` before the interpreter check, so the combined
string never starts with `"python"` and the per-command dependency
install step is never attempted for any command of the batch. -/
theorem C9_workspace_never_pip_installs (w cmd : Str) (eng : ExecEngine)
    (cmds : List Str) (rs : List CommandResult) (evs : List ExecEvent)
    (h : execLoop eng (some w) cmds = .ok (rs, evs)) :
    startsWith (str "python") (cmdToRun (some w) cmd) = false ∧
    ∀ e ∈ evs, ∀ c, e ≠ ExecEvent.pipSetup c :=
  ⟨startsWith_python_cmdToRun w cmd, execLoop_no_pipSetup eng w cmds rs evs h⟩

/-- Witness for C9: even the command `python x.py`, run in workspace
`w1`, produces no pip-install event. -/
theorem C9_workspace_never_pip_installs_witness :
    (execLoop tfEngine (some (str "w1")) [str "python x.py"] =
      .ok ([⟨str "python x.py", 0, str "ok", [], true⟩],
           [ExecEvent.ran (str "cd /app/workspaces/w1 && python x.py")])) ∧
    (startsWith (str "python") (cmdToRun (some (str "w1")) (str "python x.py")) = false ∧
     ∀ e ∈ [ExecEvent.ran (str "cd /app/workspaces/w1 && python x.py")],
       ∀ c, e ≠ ExecEvent.pipSetup c) :=
  ⟨rfl, C9_workspace_never_pip_installs (str "w1") (str "python x.py") tfEngine
    [str "python x.py"]
    [⟨str "python x.py", 0, str "ok", [], true⟩]
    [ExecEvent.ran (str "cd /app/workspaces/w1 && python x.py")] rfl⟩

/-! ## File transfer (`write_file_sandbox`, `copy_file`,
`copy_file_from_sandbox`, lines 317–633) -/

/-- UTF-8 encoding of one character (Python `str.encode('utf-8')`). -/
def utf8Char (c : Char) : List Nat :=
  let n := c.toNat
  if n < 128 then [n]
  else if n < 2048 then [192 + n / 64, 128 + n % 64]
  else if n < 65536 then [224 + n / 4096, 128 + (n / 64) % 64, 128 + n % 64]
  else [240 + n / 262144, 128 + (n / 4096) % 64, 128 + (n / 64) % 64, 128 + n % 64]

/-- UTF-8 encoding of a string. -/
def utf8 (s : Str) : List Nat := (s.map utf8Char).flatten

/-- A named byte payload inside a tar archive. -/
structure ArchiveEntry where
  name : Str
  bytes : List Nat
deriving DecidableEq

/-- The container's filesystem, path to file bytes. -/
abbrev CFS := Str → Option (List Nat)

/-- The local filesystem written by downloads. -/
abbrev LStore := Str → Option (List Nat)

/-- Python `target_dir[:-1]` applied when `target_dir.endswith("/")`
(lines 360–361). -/
def stripTrailingSlash (s : Str) : Str :=
  if s.getLast? = some '/' then s.dropLast else s

/-- `container.put_archive(dir, tar)`: each entry of the archive is
extracted to `<dir>/<entry name>`. -/
def putArchive (fs : CFS) (dir : Str) (entries : List ArchiveEntry) : CFS :=
  entries.foldl
    (fun f en => fun p =>
      if p = stripTrailingSlash dir ++ '/' :: en.name then some en.bytes else f p)
    fs

/-- `os.path.basename`: the part after the last separator. -/
def basename (s : Str) : Str := ((splitSlash s).getLast?).getD []

/-- `container.get_archive(p)`: a single-entry tar stream holding the
file's bytes under its base name, or a raised `NotFound`. -/
def getArchive (fs : CFS) (p : Str) : Except Str (List ArchiveEntry) :=
  match fs p with
  | some bs => .ok [⟨basename p, bs⟩]
  | none => .error (str "NotFound")

/-- The dict returned by `write_file_sandbox`. -/
structure WriteResult where
  success : Bool
  filePath : Option Str
  error : Option Str
deriving DecidableEq

/-- `write_file_sandbox` (lines 317–395): resolve the target directory
(sanitizing the caller-supplied `dest_dir`), `mkdir -p` it, build a
single-entry in-memory tar holding the UTF-8 encoded contents under
`file_name`, upload it to the target directory, and report the full
file path. -/
def write_file_sandbox (avail : Bool) (contains : Str → Bool) (fs : CFS)
    (cid name contents : Str) (ws dest : Option Str) : WriteResult × CFS :=
  if avail = false then (⟨false, none, some (str "Docker服务不可用")⟩, fs)
  else if contains cid = false then
    (⟨false, none, some (str "写入文件失败: NotFound")⟩, fs)
  else
    let base := baseDir ws
    let targetDir := resolveTargetDir base dest
    -- `mkdir -p targetDir` is issued through exec_run; directories are
    -- implicit in the filesystem model.
    let targetDir2 := stripTrailingSlash targetDir
    let filePath := targetDir2 ++ '/' :: name
    (⟨true, some filePath, none⟩, putArchive fs targetDir2 [⟨name, utf8 contents⟩])

/-- The dict returned by `copy_file_from_sandbox`. -/
structure CopyOutResult where
  success : Bool
  localPath : Option Str
  fileSize : Option Nat
  error : Option Str
deriving DecidableEq

/-- `copy_file_from_sandbox` (lines 563–633): root a relative source
under the workspace, default the local destination to the base name,
download the archive, decode its first entry, write the bytes locally
and report the local path and its byte size. -/
def copy_file_from_sandbox (avail : Bool) (contains : Str → Bool) (fs : CFS)
    (lfs : LStore) (cid srcPath : Str) (ws localDest : Option Str) :
    CopyOutResult × LStore :=
  if avail = false then (⟨false, none, none, some (str "Docker服务不可用")⟩, lfs)
  else if contains cid = false then
    (⟨false, none, none, some (str "从容器复制文件失败: NotFound")⟩, lfs)
  else
    let src := match ws with
      | some w =>
        if isAbs srcPath = false then str "/app/workspaces/" ++ w ++ '/' :: srcPath
        else srcPath
      | none => srcPath
    let dest := localDest.getD (basename src)
    match getArchive fs src with
    | .error e => (⟨false, none, none, some (str "从容器复制文件失败: " ++ e)⟩, lfs)
    | .ok entries =>
      match entries with
      | [] => (⟨false, none, none, some (str "从容器复制文件失败: IndexError")⟩, lfs)
      | m :: _ =>
        (⟨true, some dest, some m.bytes.length, none⟩,
         fun p => if p = dest then some m.bytes else lfs p)

theorem getLast?_append_right (l m : Str) (hm : m ≠ []) :
    (l ++ m).getLast? = m.getLast? :=
  List.getLast?_append_of_ne_nil l hm

/-- Claim C7: writing a file into a workspace with `write_file_sandbox`
and retrieving the same name with `copy_file_from_sandbox` yields local
bytes equal to the UTF-8 encoding of the original contents, with the
reported `file_size` equal to that encoding's length. -/
theorem C7_write_then_copy_roundtrip (contains : Str → Bool) (fs : CFS)
    (lfs : LStore) (cid w name contents : Str)
    (hc : contains cid = true) (hnabs : isAbs name = false)
    (hw : w ≠ []) (hwl : w.getLast? ≠ some '/') :
    (write_file_sandbox true contains fs cid name contents (some w) none).1.success = true ∧
    (copy_file_from_sandbox true contains
        (write_file_sandbox true contains fs cid name contents (some w) none).2
        lfs cid name (some w) none).1.success = true ∧
    (copy_file_from_sandbox true contains
        (write_file_sandbox true contains fs cid name contents (some w) none).2
        lfs cid name (some w) none).1.fileSize = some (utf8 contents).length ∧
    (copy_file_from_sandbox true contains
        (write_file_sandbox true contains fs cid name contents (some w) none).2
        lfs cid name (some w) none).2
      ((copy_file_from_sandbox true contains
          (write_file_sandbox true contains fs cid name contents (some w) none).2
          lfs cid name (some w) none).1.localPath.getD []) = some (utf8 contents) := by
  have hbase : (str "/app/workspaces/" ++ w).getLast? = w.getLast? :=
    getLast?_append_right _ _ hw
  have hstrip : stripTrailingSlash (str "/app/workspaces/" ++ w) =
      str "/app/workspaces/" ++ w := by
    unfold stripTrailingSlash
    rw [hbase, if_neg hwl]
  have hwr : write_file_sandbox true contains fs cid name contents (some w) none =
      (⟨true, some (str "/app/workspaces/" ++ w ++ '/' :: name), none⟩,
       fun p => if p = str "/app/workspaces/" ++ w ++ '/' :: name
                then some (utf8 contents) else fs p) := by
    unfold write_file_sandbox
    rw [hc]
    simp only [Bool.true_eq_false, if_false, baseDir, resolveTargetDir, hstrip,
      putArchive, List.foldl_cons, List.foldl_nil, List.append_assoc]
  have hrd : copy_file_from_sandbox true contains
      (fun p => if p = str "/app/workspaces/" ++ w ++ '/' :: name
                then some (utf8 contents) else fs p)
      lfs cid name (some w) none =
      (⟨true, some (basename (str "/app/workspaces/" ++ w ++ '/' :: name)),
        some (utf8 contents).length, none⟩,
       fun p => if p = basename (str "/app/workspaces/" ++ w ++ '/' :: name)
                then some (utf8 contents) else lfs p) := by
    unfold copy_file_from_sandbox
    rw [hc, hnabs]
    simp only [Bool.true_eq_false, if_false, eq_self_iff_true, if_true,
      Option.getD_none, getArchive]
  rw [hwr]
  simp only
  rw [hrd]
  simp

/-- Witness for C7: content `"hello"` written as `a.txt` in workspace
`w1` round-trips with reported size 5. -/
theorem C7_write_then_copy_roundtrip_witness :
    ((fun (_ : Str) => true) (str "c0") = true ∧
     isAbs (str "a.txt") = false ∧ str "w1" ≠ [] ∧
     (str "w1").getLast? ≠ some '/') ∧
    (utf8 (str "hello")).length = 5 ∧
    ((write_file_sandbox true (fun _ => true) (fun _ => none) (str "c0")
        (str "a.txt") (str "hello") (some (str "w1")) none).1.success = true ∧
     (copy_file_from_sandbox true (fun _ => true)
        (write_file_sandbox true (fun _ => true) (fun _ => none) (str "c0")
          (str "a.txt") (str "hello") (some (str "w1")) none).2
        (fun _ => none) (str "c0") (str "a.txt") (some (str "w1")) none).1.success = true ∧
     (copy_file_from_sandbox true (fun _ => true)
        (write_file_sandbox true (fun _ => true) (fun _ => none) (str "c0")
          (str "a.txt") (str "hello") (some (str "w1")) none).2
        (fun _ => none) (str "c0") (str "a.txt") (some (str "w1")) none).1.fileSize =
       some (utf8 (str "hello")).length ∧
     (copy_file_from_sandbox true (fun _ => true)
        (write_file_sandbox true (fun _ => true) (fun _ => none) (str "c0")
          (str "a.txt") (str "hello") (some (str "w1")) none).2
        (fun _ => none) (str "c0") (str "a.txt") (some (str "w1")) none).2
       ((copy_file_from_sandbox true (fun _ => true)
          (write_file_sandbox true (fun _ => true) (fun _ => none) (str "c0")
            (str "a.txt") (str "hello") (some (str "w1")) none).2
          (fun _ => none) (str "c0") (str "a.txt") (some (str "w1")) none).1.localPath.getD [])
       = some (utf8 (str "hello"))) :=
  ⟨⟨rfl, by decide, by decide, by decide⟩, by decide,
   C7_write_then_copy_roundtrip (fun _ => true) (fun _ => none) (fun _ => none)
     (str "c0") (str "w1") (str "a.txt") (str "hello")
     rfl (by decide) (by decide) (by decide)⟩

/-! ## Engine-call traces for `copy_file`, `sandbox_stop`,
`clean_workspace` -/

/-- The calls an operation issues to the container engine, in order. -/
inductive EngineCall where
  | getContainer (cid : Str)
  | execRun (cmd : Str)
  | putArchiveCall (dir : Str)
  | stopContainer (cid : Str) (timeout : Nat)
  | removeContainer (cid : Str) (volumes : Bool)
deriving DecidableEq

/-- Python `s.rstrip('/')`. -/
def rstripSlash (s : Str) : Str := (s.reverse.dropWhile (· = '/')).reverse

/-- `os.path.dirname` for POSIX paths: everything before the last
separator, with trailing separators stripped unless the head is all
separators. -/
def dirname (s : Str) : Str :=
  if ('/' ∈ s) = false then []
  else
    let head := (s.reverse.dropWhile (· ≠ '/')).reverse
    if head.all (· = '/') then head else rstripSlash head

/-- The dict returned by `copy_file`. -/
structure CopyInResult where
  success : Bool
  filePath : Option Str
  error : Option Str
deriving DecidableEq

/-- `copy_file` (lines 397–474), returning its result together with the
ordered engine calls it issued.  Note the order in the source: the
container lookup (line 419) happens before the local-existence check
(line 422). -/
def copy_file (avail : Bool) (contains : Str → Bool) (localExists : Str → Bool)
    (cid localSrc : Str) (ws destPath : Option Str) :
    CopyInResult × List EngineCall :=
  if avail = false then (⟨false, none, some (str "Docker服务不可用")⟩, [])
  else if contains cid = false then
    (⟨false, none, some (str "复制文件失败: NotFound")⟩, [EngineCall.getContainer cid])
  else if localExists localSrc = false then
    (⟨false, none, some (str "本地文件不存在: " ++ localSrc)⟩,
     [EngineCall.getContainer cid])
  else
    let base := baseDir ws
    let dest := destPath.getD (basename localSrc)
    let full := copyFileDest base dest
    let destDir := dirname full
    let mkdirCalls :=
      if destDir ≠ [] then [EngineCall.execRun (str "mkdir -p " ++ destDir)] else []
    (⟨true, some full, none⟩,
     EngineCall.getContainer cid :: mkdirCalls ++
       [EngineCall.putArchiveCall (if destDir = [] then str "/" else destDir)])

/-- Claim C3 as stated is false: a `copy_file` call whose local source
path does not exist does return `success = false` with the
local-file-not-found error, but it has already issued a container
lookup to the engine, so the engine-call list is not empty. -/
theorem C3_lookup_before_check_counterexample :
    copy_file true (fun _ => true) (fun _ => false) (str "c0") (str "/tmp/x")
        none none =
      (⟨false, none, some (str "本地文件不存在: /tmp/x")⟩,
       [EngineCall.getContainer (str "c0")]) ∧
    [EngineCall.getContainer (str "c0")] ≠ ([] : List EngineCall) := by
  constructor
  · rfl
  · simp

/-- Claim C3, amended: whenever docker is available, the container
lookup succeeds and the local source path does not exist, `copy_file`
returns `success = false` with the local-file-not-found error, and the
only engine call issued is that initial container lookup — in
particular no exec, archive upload or other mutating call is made. -/
theorem C3_local_missing_only_lookup (contains localExists : Str → Bool)
    (cid localSrc : Str) (ws destPath : Option Str)
    (hc : contains cid = true) (hmiss : localExists localSrc = false) :
    copy_file true contains localExists cid localSrc ws destPath =
      (⟨false, none, some (str "本地文件不存在: " ++ localSrc)⟩,
       [EngineCall.getContainer cid]) := by
  unfold copy_file
  rw [hc, hmiss]
  simp

/-- Witness for the amended C3. -/
theorem C3_local_missing_only_lookup_witness :
    ((fun (_ : Str) => true) (str "c1") = true ∧
     (fun (_ : Str) => false) (str "data.csv") = false) ∧
    copy_file true (fun _ => true) (fun _ => false) (str "c1") (str "data.csv")
        (some (str "w1")) none =
      (⟨false, none, some (str "本地文件不存在: data.csv")⟩,
       [EngineCall.getContainer (str "c1")]) :=
  ⟨⟨rfl, rfl⟩,
   C3_local_missing_only_lookup (fun _ => true) (fun _ => false) (str "c1")
     (str "data.csv") (some (str "w1")) none rfl rfl⟩

/-! ## Stopping containers (`sandbox_stop`, lines 635–681) -/

/-- The running status of the engine's containers: `none` when the
container does not exist, otherwise whether it is running. -/
abbrev EngineState := Str → Option Bool

/-- The effect of a trace of engine calls on running statuses: stop
suspends, remove deletes, everything else leaves statuses unchanged. -/
def applyCall (st : EngineState) : EngineCall → EngineState
  | .stopContainer cid _ => fun i => if i = cid then (st i).map (fun _ => false) else st i
  | .removeContainer cid _ => fun i => if i = cid then none else st i
  | _ => st

def applyCalls (st : EngineState) (cs : List EngineCall) : EngineState :=
  cs.foldl applyCall st

/-- The dict returned by `sandbox_stop`. -/
structure StopResult where
  success : Bool
  message : Option Str
  error : Option Str
deriving DecidableEq

/-- `sandbox_stop` (lines 635–681): a persistent target (explicit flag
or id equal to the cached persistent identity) is reported successful
without any engine call; any other container is looked up, stopped with
a 10-second timeout and then removed together with its volumes. -/
def sandbox_stop (avail : Bool) (contains : Str → Bool) (cache : Option Str)
    (cid : Str) (isPersistent : Bool) : StopResult × List EngineCall :=
  if avail = false then (⟨false, none, some (str "Docker服务不可用")⟩, [])
  else if isPersistent = true ∨ cache = some cid then
    (⟨true, some (str "容器 " ++ cid ++ str " 是持久化容器，已标记为保留"), none⟩, [])
  else if contains cid = false then
    (⟨false, none, some (str "停止容器失败: NotFound")⟩, [EngineCall.getContainer cid])
  else
    (⟨true, some (str "容器 " ++ cid ++ str " 已停止并移除"), none⟩,
     [EngineCall.getContainer cid, EngineCall.stopContainer cid 10,
      EngineCall.removeContainer cid true])

/-- Claim C6: stopping the persistent environment (explicit flag or id
equal to the cached persistent identity) reports success without
issuing any engine call, so every container's running status is
unchanged; stopping any other existing container issues exactly
lookup, stop (timeout 10) and remove-with-volumes, in that order. -/
theorem C6_stop_spares_persistent (contains : Str → Bool) (cache : Option Str)
    (cid : Str) (isPersistent : Bool) (st : EngineState) :
    (isPersistent = true ∨ cache = some cid →
      (sandbox_stop true contains cache cid isPersistent).1.success = true ∧
      (sandbox_stop true contains cache cid isPersistent).2 = [] ∧
      applyCalls st (sandbox_stop true contains cache cid isPersistent).2 = st) ∧
    (isPersistent = false → cache ≠ some cid → contains cid = true →
      (sandbox_stop true contains cache cid isPersistent).1.success = true ∧
      (sandbox_stop true contains cache cid isPersistent).2 =
        [EngineCall.getContainer cid, EngineCall.stopContainer cid 10,
         EngineCall.removeContainer cid true]) := by
  constructor
  · intro hp
    unfold sandbox_stop
    rw [if_neg (by simp), if_pos hp]
    exact ⟨rfl, rfl, rfl⟩
  · intro hnp hnc hc
    unfold sandbox_stop
    rw [if_neg (by simp), if_neg (by simp [hnp, hnc]), hc,
      if_neg (by simp)]
    exact ⟨rfl, rfl⟩

/-- Witness for C6: with cached persistent identity `p0`, stopping `p0`
is a no-op on the engine state while stopping `c1` stops and removes
it. -/
theorem C6_stop_spares_persistent_witness :
    ((sandbox_stop true (fun _ => true) (some (str "p0")) (str "p0") false).1.success = true ∧
     (sandbox_stop true (fun _ => true) (some (str "p0")) (str "p0") false).2 = [] ∧
     applyCalls (fun _ => some true)
       (sandbox_stop true (fun _ => true) (some (str "p0")) (str "p0") false).2 =
       (fun _ => some true)) ∧
    ((sandbox_stop true (fun _ => true) (some (str "p0")) (str "c1") false).1.success = true ∧
     (sandbox_stop true (fun _ => true) (some (str "p0")) (str "c1") false).2 =
       [EngineCall.getContainer (str "c1"), EngineCall.stopContainer (str "c1") 10,
        EngineCall.removeContainer (str "c1") true]) :=
  ⟨(C6_stop_spares_persistent (fun _ => true) (some (str "p0")) (str "p0") false
      (fun _ => some true)).1 (Or.inr rfl),
   (C6_stop_spares_persistent (fun _ => true) (some (str "p0")) (str "c1") false
      (fun _ => some true)).2 rfl (by decide) rfl⟩

/-! ## Workspace cleanup (`clean_workspace`, lines 683–719) -/

/-- The dict returned by `clean_workspace`. -/
structure CleanResult where
  success : Bool
  message : Option Str
  error : Option Str
deriving DecidableEq

/-- `clean_workspace` (lines 683–719): look the container up, issue
`rm -rf /app/workspaces/<workspace_id>` and report success — the
removal command's exit status (`rmExit`) is never inspected.  The
directory list models the container's directory tree; the removal
deletes the workspace subtree whether or not it was present. -/
def clean_workspace (avail : Bool) (contains : Str → Bool) (_rmExit : Nat)
    (dirs : List Str) (cid wsid : Str) : CleanResult × List Str :=
  if avail = false then (⟨false, none, some (str "Docker服务不可用")⟩, dirs)
  else if contains cid = false then
    (⟨false, none, some (str "清理工作区失败: NotFound")⟩, dirs)
  else
    let p := str "/app/workspaces/" ++ wsid
    (⟨true, some (str "已清理工作区: " ++ p), none⟩,
     dirs.filter (fun d => startsWith p d = false))

/-- Claim C10: for an existing container, `clean_workspace` reports
`success = true` for every workspace id and every directory state —
whether or not the workspace directory exists — and its result is
independent of the removal command's exit status and of the directory
state, because the exit status is never inspected. -/
theorem C10_clean_ignores_rm_exit (contains : Str → Bool)
    (rmExit rmExit2 : Nat) (dirs dirs2 : List Str) (cid wsid : Str)
    (hc : contains cid = true) :
    (clean_workspace true contains rmExit dirs cid wsid).1.success = true ∧
    (clean_workspace true contains rmExit dirs cid wsid).1 =
      (clean_workspace true contains rmExit2 dirs2 cid wsid).1 := by
  unfold clean_workspace
  rw [hc]
  exact ⟨by simp, by simp⟩

/-- Witness for C10: cleaning workspace `gone` succeeds both when its
directory exists and when the directory list is empty. -/
theorem C10_clean_ignores_rm_exit_witness :
    ((fun (_ : Str) => true) (str "c0") = true) ∧
    ((clean_workspace true (fun _ => true) 0 [str "/app/workspaces/gone"]
        (str "c0") (str "gone")).1.success = true ∧
     (clean_workspace true (fun _ => true) 0 [str "/app/workspaces/gone"]
        (str "c0") (str "gone")).1 =
       (clean_workspace true (fun _ => true) 1 [] (str "c0") (str "gone")).1) :=
  ⟨rfl,
   C10_clean_ignores_rm_exit (fun _ => true) 0 1 [str "/app/workspaces/gone"] []
     (str "c0") (str "gone") rfl⟩

/-! ## Persistent-environment registry
(`ensure_persistent_container`, lines 59–124, and the persistent branch
of `sandbox_initialize`, lines 144–180) -/

/-- The engine state the registry observes: the container carrying the
fixed well-known name (`code_sandbox_persistent`), as id and running
flag, and the id the engine would assign next. -/
structure DockerState where
  named : Option (Nat × Bool)
  nextId : Nat
deriving DecidableEq

/-- `containers.get(id)`: the running status of the container with the
given identity, `none` when it raises `NotFound`. -/
def byId (st : DockerState) (i : Nat) : Option Bool :=
  match st.named with
  | some (j, r) => if j = i then some r else none
  | none => none

/-- Lines 74–121 of `ensure_persistent_container`: look the well-known
name up; on a hit start the container when it is stopped and cache its
id; on a miss create a fresh named running container and cache its id.
Returns the new engine state, the new cached identity, and the id
handed to the caller. -/
def lookupOrCreate (st : DockerState) : DockerState × Option Nat × Nat :=
  match st.named with
  | some (i, _) => (⟨some (i, true), st.nextId⟩, some i, i)
  | none => (⟨some (st.nextId, true), st.nextId + 1⟩, some st.nextId, st.nextId)

/-- `ensure_persistent_container` (lines 59–124): under the lock, a
cached identity naming a running container is returned as is; otherwise
(stale cache, stopped container or no cache) fall through to the
name lookup / creation. -/
def ensure_persistent_container (st : DockerState) (cache : Option Nat) :
    DockerState × Option Nat × Nat :=
  match cache with
  | some i =>
    match byId st i with
    | some true => (st, cache, i)
    | some false => lookupOrCreate st
    | none => lookupOrCreate st
  | none => lookupOrCreate st

/-- The dict returned by `sandbox_initialize`. -/
structure InitResult where
  success : Bool
  containerId : Option Nat
  workspacePath : Option Str
  error : Option Str
deriving DecidableEq

/-- The persistent branch of `sandbox_initialize` (lines 144–180).  Its
fast path (lines 147–163) looks the well-known name up itself, outside
the lock: on a hit it execs `mkdir` in the found container — which
raises, and is caught as a failure, when the container is not running —
and returns the container's id without starting the container and
without updating the cached identity; only on `NotFound` does it fall
back to `ensure_persistent_container`. -/
def sandboxInitPersistent (st : DockerState) (cache : Option Nat) (wsid : Str) :
    DockerState × Option Nat × InitResult :=
  match st.named with
  | some (i, r) =>
    if r then
      (st, cache, ⟨true, some i, some (str "/app/workspaces/" ++ wsid), none⟩)
    else (st, cache, ⟨false, none, none, some (str "创建容器失败: APIError")⟩)
  | none =>
    match ensure_persistent_container st cache with
    | (st2, cache2, cid) =>
      (st2, cache2, ⟨true, some cid, some (str "/app/workspaces/" ++ wsid), none⟩)

/-- Claim C5 as stated is false: with no cached identity and the named
environment present but stopped, `sandbox_initialize`'s fast path
fails without starting the environment and without caching its
identity; even when the named environment is running, its identity is
returned but never cached. -/
theorem C5_fast_path_counterexample :
    (sandboxInitPersistent ⟨some (7, false), 8⟩ none (str "w")).1.named = some (7, false) ∧
    (sandboxInitPersistent ⟨some (7, false), 8⟩ none (str "w")).2.1 = none ∧
    (sandboxInitPersistent ⟨some (7, false), 8⟩ none (str "w")).2.2.success = false ∧
    (sandboxInitPersistent ⟨some (7, true), 8⟩ none (str "w")).2.1 = none ∧
    (sandboxInitPersistent ⟨some (7, true), 8⟩ none (str "w")).2.2.containerId = some 7 := by
  decide

/-- Claim C5, amended: it is `ensure_persistent_container` (the
registry acquisition) that, on finding no valid cached identity while
an environment with the well-known name exists, ensures that
environment is started and caches its identity before returning it;
`sandbox_initialize`'s own fast path returns the named environment's id
without starting or caching it. -/
theorem C5_ensure_starts_and_caches (st : DockerState) (cache : Option Nat)
    (i : Nat) (r : Bool) (hn : st.named = some (i, r))
    (hstale : ∀ j, cache = some j → byId st j ≠ some true) :
    (ensure_persistent_container st cache).1.named = some (i, true) ∧
    (ensure_persistent_container st cache).2.1 = some i ∧
    (ensure_persistent_container st cache).2.2 = i := by
  have hlc : lookupOrCreate st = (⟨some (i, true), st.nextId⟩, some i, i) := by
    unfold lookupOrCreate
    rw [hn]
  cases cache with
  | none =>
    have hred : ensure_persistent_container st none = lookupOrCreate st := rfl
    rw [hred, hlc]
    exact ⟨rfl, rfl, rfl⟩
  | some j =>
    have hred : ensure_persistent_container st (some j) =
        (match byId st j with
         | some true => (st, some j, j)
         | some false => lookupOrCreate st
         | none => lookupOrCreate st) := rfl
    rw [hred]
    cases hb : byId st j with
    | none =>
      simp [hb, hlc]
    | some b =>
      cases b with
      | false =>
        simp [hb, hlc]
      | true => exact absurd hb (hstale j rfl)

/-- Witness for the amended C5: stale cache `3`, named container `7`
stopped — the registry starts it, caches `7` and returns `7`. -/
theorem C5_ensure_starts_and_caches_witness :
    ((⟨some (7, false), 8⟩ : DockerState).named = some (7, false) ∧
     (∀ j, (some 3 : Option Nat) = some j → byId ⟨some (7, false), 8⟩ j ≠ some true)) ∧
    ((ensure_persistent_container ⟨some (7, false), 8⟩ (some 3)).1.named = some (7, true) ∧
     (ensure_persistent_container ⟨some (7, false), 8⟩ (some 3)).2.1 = some 7 ∧
     (ensure_persistent_container ⟨some (7, false), 8⟩ (some 3)).2.2 = 7) :=
  ⟨⟨rfl, by decide⟩,
   C5_ensure_starts_and_caches ⟨some (7, false), 8⟩ (some 3) 7 false rfl (by decide)⟩

/-! ## Concurrent acquisition of the persistent environment (C4)

Threads run the persistent branch of `sandbox_initialize`
concurrently.  The unlocked fast path (lines 147–163) is a single read
of the well-known name; the body of `ensure_persistent_container` runs
entirely inside `with container_lock:` (line 63), so each of its steps
below carries the precondition that the thread holds the lock, and the
lock is released exactly when the call returns. -/

/-- Control locations of one thread. -/
inductive PC where
  | start
  | ensureEntry
  | lockedCheck
  | lockedLookup
  | lockedCreate
  | done (i : Nat)
  | doneErr
deriving DecidableEq

/-- Update one thread's control location. -/
def upd (p : Nat → PC) (t : Nat) (v : PC) : Nat → PC :=
  fun u => if u = t then v else p u

/-- Shared state: the lock owner, the cached persistent identity
(`persistent_container_id`), the container carrying the well-known
name, the next engine-assigned id, how many persistent containers were
created so far, and every thread's control location. -/
structure RState where
  lock : Option Nat
  cache : Option Nat
  named : Option (Nat × Bool)
  nextId : Nat
  creations : Nat
  pcs : Nat → PC

/-- Initially: lock free, no cached identity, no persistent container,
all threads about to call the operation. -/
def initRState : RState :=
  ⟨none, none, none, 0, 0, fun _ => PC.start⟩

/-- One interleaved step of the system. -/
inductive Step : RState → RState → Prop where
  | fastHit (s : RState) (t i : Nat) :
      s.pcs t = PC.start → s.named = some (i, true) →
      Step s { s with pcs := upd s.pcs t (PC.done i) }
  | fastStopped (s : RState) (t i : Nat) :
      s.pcs t = PC.start → s.named = some (i, false) →
      Step s { s with pcs := upd s.pcs t PC.doneErr }
  | fastMiss (s : RState) (t : Nat) :
      s.pcs t = PC.start → s.named = none →
      Step s { s with pcs := upd s.pcs t PC.ensureEntry }
  | acquire (s : RState) (t : Nat) :
      s.pcs t = PC.ensureEntry → s.lock = none →
      Step s { s with lock := some t, pcs := upd s.pcs t PC.lockedCheck }
  | cacheHit (s : RState) (t i : Nat) :
      s.pcs t = PC.lockedCheck → s.lock = some t → s.cache = some i →
      s.named = some (i, true) →
      Step s { s with lock := none, pcs := upd s.pcs t (PC.done i) }
  | cacheGone (s : RState) (t i : Nat) :
      s.pcs t = PC.lockedCheck → s.lock = some t → s.cache = some i →
      (∀ r, s.named ≠ some (i, r)) →
      Step s { s with cache := none, pcs := upd s.pcs t PC.lockedLookup }
  | cacheStopped (s : RState) (t i : Nat) :
      s.pcs t = PC.lockedCheck → s.lock = some t → s.cache = some i →
      s.named = some (i, false) →
      Step s { s with pcs := upd s.pcs t PC.lockedLookup }
  | cacheNone (s : RState) (t : Nat) :
      s.pcs t = PC.lockedCheck → s.lock = some t → s.cache = none →
      Step s { s with pcs := upd s.pcs t PC.lockedLookup }
  | lookupHit (s : RState) (t i : Nat) (r : Bool) :
      s.pcs t = PC.lockedLookup → s.lock = some t → s.named = some (i, r) →
      Step s { s with named := some (i, true), cache := some i, lock := none,
                      pcs := upd s.pcs t (PC.done i) }
  | lookupMiss (s : RState) (t : Nat) :
      s.pcs t = PC.lockedLookup → s.lock = some t → s.named = none →
      Step s { s with pcs := upd s.pcs t PC.lockedCreate }
  | create (s : RState) (t : Nat) :
      s.pcs t = PC.lockedCreate → s.lock = some t →
      Step s { s with named := some (s.nextId, true), cache := some s.nextId,
                      creations := s.creations + 1, nextId := s.nextId + 1,
                      lock := none, pcs := upd s.pcs t (PC.done s.nextId) }

/-- States reachable from the initial state. -/
inductive Reach : RState → Prop where
  | init : Reach initRState
  | step {s s2 : RState} : Reach s → Step s s2 → Reach s2

/-- Control locations inside the critical section. -/
def LockedPC (p : PC) : Prop :=
  p = PC.lockedCheck ∨ p = PC.lockedLookup ∨ p = PC.lockedCreate

/-- The inductive invariant: before the persistent container exists
nothing is cached, created or returned; once it exists it is running,
was created at most once, is the only cached and the only returned
identity; threads in the critical section hold the lock; and a thread
about to create has observed the container absent, which remains true
while it holds the lock. -/
def Inv (s : RState) : Prop :=
  (s.named = none → s.cache = none ∧ s.creations = 0 ∧ ∀ t i, s.pcs t ≠ PC.done i) ∧
  (∀ i r, s.named = some (i, r) →
    r = true ∧ s.creations ≤ 1 ∧ (s.cache = none ∨ s.cache = some i) ∧
    ∀ t j, s.pcs t = PC.done j → j = i) ∧
  (∀ t, LockedPC (s.pcs t) → s.lock = some t) ∧
  (∀ t, s.pcs t = PC.lockedCreate → s.named = none)

theorem upd_same (p : Nat → PC) (t : Nat) (v : PC) : upd p t v t = v := by
  simp [upd]

theorem upd_other (p : Nat → PC) (t u : Nat) (v : PC) (h : u ≠ t) :
    upd p t v u = p u := by
  simp [upd, h]

theorem Inv_init : Inv initRState := by
  refine ⟨?_, ?_, ?_, ?_⟩
  · intro _; exact ⟨rfl, rfl, fun t i => by simp [initRState]⟩
  · intro i r h; simp [initRState] at h
  · intro t hl; simp [initRState, LockedPC] at hl
  · intro t h; simp [initRState] at h

theorem Inv_step {s s2 : RState} (hinv : Inv s) (hstep : Step s s2) : Inv s2 := by
  obtain ⟨P1, P2, P3, P4⟩ := hinv
  cases hstep with
  | fastHit t i hpc hn =>
    refine ⟨?_, ?_, ?_, ?_⟩
    · intro h; simp only [hn] at h; exact absurd h (by simp)
    · intro i2 r2 h
      simp only [hn] at h
      injection h with h2
      injection h2 with ha hb
      subst ha; subst hb
      obtain ⟨_, hcre, hcmem, hdones⟩ := P2 i true hn
      refine ⟨rfl, hcre, hcmem, ?_⟩
      intro u j hu2
      by_cases hu : u = t
      · subst hu; simp only [upd_same] at hu2
        injection hu2 with h3
        exact h3.symm
      · simp only [upd_other _ _ _ _ hu] at hu2; exact hdones u j hu2
    · intro u hl2
      by_cases hu : u = t
      · subst hu; simp only [upd_same] at hl2; simp [LockedPC] at hl2
      · simp only [upd_other _ _ _ _ hu] at hl2; exact P3 u hl2
    · intro u hu2
      by_cases hu : u = t
      · subst hu; simp only [upd_same] at hu2; simp at hu2
      · simp only [upd_other _ _ _ _ hu] at hu2
        have h0 := P4 u hu2
        rw [h0] at hn; simp at hn
  | fastStopped t i hpc hn =>
    exact absurd (P2 i false hn).1 (by simp)
  | fastMiss t hpc hn =>
    refine ⟨?_, ?_, ?_, ?_⟩
    · intro _
      obtain ⟨hc0, hcr0, hd0⟩ := P1 hn
      refine ⟨hc0, hcr0, ?_⟩
      intro u j
      by_cases hu : u = t
      · subst hu; simp [upd_same]
      · simp only [upd_other _ _ _ _ hu]; exact hd0 u j
    · intro i2 r2 h; simp only [hn] at h; exact absurd h (by simp)
    · intro u hl2
      by_cases hu : u = t
      · subst hu; simp only [upd_same] at hl2; simp [LockedPC] at hl2
      · simp only [upd_other _ _ _ _ hu] at hl2; exact P3 u hl2
    · intro u _; exact hn
  | acquire t hpc hl =>
    refine ⟨?_, ?_, ?_, ?_⟩
    · intro h
      obtain ⟨hc0, hcr0, hd0⟩ := P1 h
      refine ⟨hc0, hcr0, ?_⟩
      intro u j
      by_cases hu : u = t
      · subst hu; simp [upd_same]
      · simp only [upd_other _ _ _ _ hu]; exact hd0 u j
    · intro i2 r2 h
      obtain ⟨hr, hcre, hcmem, hdones⟩ := P2 i2 r2 h
      refine ⟨hr, hcre, hcmem, ?_⟩
      intro u j hu2
      by_cases hu : u = t
      · subst hu; simp only [upd_same] at hu2; simp at hu2
      · simp only [upd_other _ _ _ _ hu] at hu2; exact hdones u j hu2
    · intro u hl2
      by_cases hu : u = t
      · subst hu; rfl
      · simp only [upd_other _ _ _ _ hu] at hl2
        have h5 := P3 u hl2
        rw [hl] at h5
        simp at h5
    · intro u hu2
      by_cases hu : u = t
      · subst hu; simp only [upd_same] at hu2; simp at hu2
      · simp only [upd_other _ _ _ _ hu] at hu2; exact P4 u hu2
  | cacheHit t i hpc hl hcache hn =>
    refine ⟨?_, ?_, ?_, ?_⟩
    · intro h; simp only [hn] at h; exact absurd h (by simp)
    · intro i2 r2 h
      simp only [hn] at h
      injection h with h2
      injection h2 with ha hb
      subst ha; subst hb
      obtain ⟨_, hcre, hcmem, hdones⟩ := P2 i true hn
      refine ⟨rfl, hcre, hcmem, ?_⟩
      intro u j hu2
      by_cases hu : u = t
      · subst hu; simp only [upd_same] at hu2
        injection hu2 with h3
        exact h3.symm
      · simp only [upd_other _ _ _ _ hu] at hu2; exact hdones u j hu2
    · intro u hl2
      by_cases hu : u = t
      · subst hu; simp only [upd_same] at hl2; simp [LockedPC] at hl2
      · simp only [upd_other _ _ _ _ hu] at hl2
        have h5 := P3 u hl2
        rw [hl] at h5
        injection h5 with h6
        exact absurd h6.symm hu
    · intro u hu2
      by_cases hu : u = t
      · subst hu; simp only [upd_same] at hu2; simp at hu2
      · simp only [upd_other _ _ _ _ hu] at hu2
        have h0 := P4 u hu2
        rw [h0] at hn; simp at hn
  | cacheGone t i hpc hl hcache hgone =>
    refine ⟨?_, ?_, ?_, ?_⟩
    · intro h
      obtain ⟨_, hcr0, hd0⟩ := P1 h
      refine ⟨rfl, hcr0, ?_⟩
      intro u j
      by_cases hu : u = t
      · subst hu; simp [upd_same]
      · simp only [upd_other _ _ _ _ hu]; exact hd0 u j
    · intro i2 r2 h
      obtain ⟨hr, hcre, _, hdones⟩ := P2 i2 r2 h
      refine ⟨hr, hcre, Or.inl rfl, ?_⟩
      intro u j hu2
      by_cases hu : u = t
      · subst hu; simp only [upd_same] at hu2; simp at hu2
      · simp only [upd_other _ _ _ _ hu] at hu2; exact hdones u j hu2
    · intro u hl2
      by_cases hu : u = t
      · subst hu; exact hl
      · simp only [upd_other _ _ _ _ hu] at hl2
        have h5 := P3 u hl2
        rw [hl] at h5
        injection h5 with h6
        exact absurd h6.symm hu
    · intro u hu2
      by_cases hu : u = t
      · subst hu; simp only [upd_same] at hu2; simp at hu2
      · simp only [upd_other _ _ _ _ hu] at hu2; exact P4 u hu2
  | cacheStopped t i hpc hl hcache hn =>
    exact absurd (P2 i false hn).1 (by simp)
  | cacheNone t hpc hl hcache =>
    refine ⟨?_, ?_, ?_, ?_⟩
    · intro h
      obtain ⟨hc0, hcr0, hd0⟩ := P1 h
      refine ⟨hc0, hcr0, ?_⟩
      intro u j
      by_cases hu : u = t
      · subst hu; simp [upd_same]
      · simp only [upd_other _ _ _ _ hu]; exact hd0 u j
    · intro i2 r2 h
      obtain ⟨hr, hcre, _, hdones⟩ := P2 i2 r2 h
      refine ⟨hr, hcre, Or.inl hcache, ?_⟩
      intro u j hu2
      by_cases hu : u = t
      · subst hu; simp only [upd_same] at hu2; simp at hu2
      · simp only [upd_other _ _ _ _ hu] at hu2; exact hdones u j hu2
    · intro u hl2
      by_cases hu : u = t
      · subst hu; exact hl
      · simp only [upd_other _ _ _ _ hu] at hl2
        have h5 := P3 u hl2
        rw [hl] at h5
        injection h5 with h6
        exact absurd h6.symm hu
    · intro u hu2
      by_cases hu : u = t
      · subst hu; simp only [upd_same] at hu2; simp at hu2
      · simp only [upd_other _ _ _ _ hu] at hu2; exact P4 u hu2
  | lookupHit t i r hpc hl hn =>
    obtain ⟨_, hcre, _, hdones⟩ := P2 i r hn
    refine ⟨?_, ?_, ?_, ?_⟩
    · intro h; simp at h
    · intro i2 r2 h
      injection h with h2
      injection h2 with ha hb
      subst ha; subst hb
      refine ⟨rfl, hcre, Or.inr rfl, ?_⟩
      intro u j hu2
      by_cases hu : u = t
      · subst hu; simp only [upd_same] at hu2
        injection hu2 with h3
        exact h3.symm
      · simp only [upd_other _ _ _ _ hu] at hu2; exact hdones u j hu2
    · intro u hl2
      by_cases hu : u = t
      · subst hu; simp only [upd_same] at hl2; simp [LockedPC] at hl2
      · simp only [upd_other _ _ _ _ hu] at hl2
        have h5 := P3 u hl2
        rw [hl] at h5
        injection h5 with h6
        exact absurd h6.symm hu
    · intro u hu2
      by_cases hu : u = t
      · subst hu; simp only [upd_same] at hu2; simp at hu2
      · simp only [upd_other _ _ _ _ hu] at hu2
        have h5 := P3 u (Or.inr (Or.inr hu2))
        rw [hl] at h5
        injection h5 with h6
        exact absurd h6.symm hu
  | lookupMiss t hpc hl hn =>
    refine ⟨?_, ?_, ?_, ?_⟩
    · intro _
      obtain ⟨hc0, hcr0, hd0⟩ := P1 hn
      refine ⟨hc0, hcr0, ?_⟩
      intro u j
      by_cases hu : u = t
      · subst hu; simp [upd_same]
      · simp only [upd_other _ _ _ _ hu]; exact hd0 u j
    · intro i2 r2 h; simp only [hn] at h; exact absurd h (by simp)
    · intro u hl2
      by_cases hu : u = t
      · subst hu; exact hl
      · simp only [upd_other _ _ _ _ hu] at hl2
        have h5 := P3 u hl2
        rw [hl] at h5
        injection h5 with h6
        exact absurd h6.symm hu
    · intro u _; exact hn
  | create t hpc hl =>
    have hn : s.named = none := P4 t hpc
    obtain ⟨hc0, hcr0, hd0⟩ := P1 hn
    refine ⟨?_, ?_, ?_, ?_⟩
    · intro h; simp at h
    · intro i2 r2 h
      injection h with h2
      injection h2 with ha hb
      subst ha; subst hb
      refine ⟨rfl, by show s.creations + 1 ≤ 1; omega, Or.inr rfl, ?_⟩
      intro u j hu2
      by_cases hu : u = t
      · subst hu; simp only [upd_same] at hu2
        injection hu2 with h3
        exact h3.symm
      · simp only [upd_other _ _ _ _ hu] at hu2; exact absurd hu2 (hd0 u j)
    · intro u hl2
      by_cases hu : u = t
      · subst hu; simp only [upd_same] at hl2; simp [LockedPC] at hl2
      · simp only [upd_other _ _ _ _ hu] at hl2
        have h5 := P3 u hl2
        rw [hl] at h5
        injection h5 with h6
        exact absurd h6.symm hu
    · intro u hu2
      by_cases hu : u = t
      · subst hu; simp only [upd_same] at hu2; simp at hu2
      · simp only [upd_other _ _ _ _ hu] at hu2
        have h5 := P3 u (Or.inr (Or.inr hu2))
        rw [hl] at h5
        injection h5 with h6
        exact absurd h6.symm hu

theorem Reach_Inv {s : RState} (h : Reach s) : Inv s := by
  induction h with
  | init => exact Inv_init
  | step _ hstep ih => exact Inv_step ih hstep

/-- Claim C4: from the initial state, under any interleaving of any
number of concurrent acquisitions of the persistent environment, at
most one persistent environment is ever created, and any two callers
that completed successfully received the same environment identity.
The model's critical-section steps carry the lock as a precondition,
exactly mirroring the `with container_lock:` block that covers
check-cache, lookup-by-name and create-if-absent in the source. -/
theorem C4_at_most_one_creation (s : RState) (h : Reach s) :
    s.creations ≤ 1 ∧
    ∀ t u i j, s.pcs t = PC.done i → s.pcs u = PC.done j → i = j := by
  obtain ⟨P1, P2, _, _⟩ := Reach_Inv h
  cases hn : s.named with
  | none =>
    obtain ⟨_, hcr0, hd0⟩ := P1 hn
    constructor
    · omega
    · intro t u i j ht _
      exact absurd ht (hd0 t i)
  | some p =>
    obtain ⟨i0, r0⟩ := p
    obtain ⟨_, hcre, _, hdones⟩ := P2 i0 r0 hn
    constructor
    · exact hcre
    · intro t u i j ht hu
      rw [hdones t i ht, hdones u j hu]

/-! A concrete five-step execution reaching a state where thread 0 has
created the persistent environment. -/

def rsA : RState := { initRState with pcs := upd initRState.pcs 0 PC.ensureEntry }

def rsB : RState := { rsA with lock := some 0, pcs := upd rsA.pcs 0 PC.lockedCheck }

def rsC : RState := { rsB with pcs := upd rsB.pcs 0 PC.lockedLookup }

def rsD : RState := { rsC with pcs := upd rsC.pcs 0 PC.lockedCreate }

def rsE : RState :=
  { rsD with named := some (rsD.nextId, true), cache := some rsD.nextId,
             creations := rsD.creations + 1, nextId := rsD.nextId + 1,
             lock := none, pcs := upd rsD.pcs 0 (PC.done rsD.nextId) }

theorem Reach_rsE : Reach rsE :=
  Reach.step
    (Reach.step
      (Reach.step
        (Reach.step
          (Reach.step Reach.init (Step.fastMiss initRState 0 rfl rfl))
          (Step.acquire rsA 0 rfl rfl))
        (Step.cacheNone rsB 0 rfl rfl rfl))
      (Step.lookupMiss rsC 0 rfl rfl rfl))
    (Step.create rsD 0 rfl rfl)

/-- Witness for C4: in the concrete reachable state after one full
acquisition, exactly one creation happened, and in particular at most
one. -/
theorem C4_at_most_one_creation_witness : rsE.creations ≤ 1 :=
  (C4_at_most_one_creation rsE Reach_rsE).1

end SandboxMCP
